import Mathlib

/-
Shallow embedding of the task-conversion tools of the ms-365-mcp-server
repository (src/conversion-tools.ts) and of the client generator
post-processing pass.  Pure logic (field mapping, body construction,
keyword extraction, checklist iteration, search loop, textual
substitutions) is translated to executable Lean definitions; every remote
call is abstracted as an oracle parameter (a function supplying the
response, with `none` standing for a thrown request error).
-/

namespace MsMcp

/-! ## Data model (interfaces of conversion-tools.ts) -/

/-- PlannerTask interface.  `priority` and `percentComplete` are JS numbers
carrying integer codes here, modelled as `Int`.  The `assignments` map is
never read by the conversion logic and is omitted. -/
structure PlannerTask where
  id : String
  title : String
  planId : String
  bucketId : Option String
  priority : Int
  percentComplete : Int
  dueDateTime : Option String
  createdDateTime : String

/-- One checklist entry of PlannerTaskDetails.checklist. -/
structure ChecklistItem where
  title : String
  isChecked : Bool
  orderHint : Option String

/-- PlannerTaskDetails.  The checklist is a JS Record; `Object.values`
iterates it in insertion order, so it is modelled as the list of its
values in that order. -/
structure PlannerTaskDetails where
  description : Option String
  checklist : Option (List ChecklistItem)

/-- The body object of a To-Do task draft. -/
structure TodoBody where
  content : String
  contentType : String

/-- The To-Do task draft produced by mapPlannerToTodo.  dueDateTime is the
optional pair (dateTime, timeZone). -/
structure TodoDraft where
  title : String
  body : TodoBody
  importance : String
  status : String
  dueDateTime : Option (String × String)

/-! ## Field mapper (mapPlannerToTodo, buildTaskBody) -/

/-- `Array.prototype.join` with a separator, as used by `lines.join(chr)`. -/
def joinWith (sep : String) : List String → String
  | [] => ""
  | [l] => l
  | l :: rest => l ++ sep ++ joinWith sep rest

/-- buildTaskBody from the source: push the description and a blank line
when the description is truthy (a JS empty string is falsy and is skipped,
like an absent one), then the four fixed metadata lines, then join with
newlines. -/
def buildTaskBody (task : PlannerTask) (details : Option PlannerTaskDetails) : String :=
  let descLines : List String :=
    match details with
    | some d =>
      match d.description with
      | some s => if s = "" then [] else [s, ""]
      | none => []
    | none => []
  let lines : List String :=
    descLines ++
      ["--- Converted from Planner ---",
       "Plan ID: " ++ task.planId,
       "Original Task ID: " ++ task.id,
       "Created: " ++ task.createdDateTime]
  joinWith "\n" lines

/-- The lookup table `importanceMap` of mapPlannerToTodo:
1 is high, 5 is normal, 9 is low, anything else is absent. -/
def importanceMap (p : Int) : Option String :=
  if p = 1 then some "high"
  else if p = 5 then some "normal"
  else if p = 9 then some "low"
  else none

/-- mapPlannerToTodo.  `importanceMap[task.priority] || 'normal'` is
`getD "normal"` (all table values are truthy non-empty strings).  The
dueDateTime guard `if (task.dueDateTime)` is JS truthiness, so an empty
string due date is dropped like an absent one. -/
def mapPlannerToTodo (task : PlannerTask) (details : Option PlannerTaskDetails)
    (withPlannerTag : Bool) : TodoDraft :=
  { title := if withPlannerTag then "[Planner] " ++ task.title else task.title
    body := { content := buildTaskBody task details, contentType := "text" }
    importance := (importanceMap task.priority).getD "normal"
    status := if task.percentComplete = 100 then "completed" else "notStarted"
    dueDateTime :=
      match task.dueDateTime with
      | some d => if d = "" then none else some (d, "UTC")
      | none => none }

/-- The joined four fixed metadata lines ending every converted body. -/
def metaBlock (task : PlannerTask) : String :=
  "--- Converted from Planner ---" ++ "\n" ++
    ("Plan ID: " ++ task.planId) ++ "\n" ++
    ("Original Task ID: " ++ task.id) ++ "\n" ++
    ("Created: " ++ task.createdDateTime)

/-- C5: the mapped importance of the destination draft is "high" when the
source priority code is 1, "normal" when it is 5, "low" when it is 9, and
"normal" for every other integer code; the mapping is total, so no error is
raised for unmapped codes. -/
theorem importance_mapping (task : PlannerTask) (details : Option PlannerTaskDetails)
    (tag : Bool) :
    (task.priority = 1 → (mapPlannerToTodo task details tag).importance = "high") ∧
    (task.priority = 5 → (mapPlannerToTodo task details tag).importance = "normal") ∧
    (task.priority = 9 → (mapPlannerToTodo task details tag).importance = "low") ∧
    (task.priority ≠ 1 ∧ task.priority ≠ 5 ∧ task.priority ≠ 9 →
      (mapPlannerToTodo task details tag).importance = "normal") := by
  refine ⟨fun h => ?_, fun h => ?_, fun h => ?_, fun h => ?_⟩
  · simp [mapPlannerToTodo, importanceMap, h]
  · simp [mapPlannerToTodo, importanceMap, h]
  · simp [mapPlannerToTodo, importanceMap, h]
  · simp [mapPlannerToTodo, importanceMap, h.1, h.2.1, h.2.2]

/-- C6: the mapped status of the destination draft is "completed" if and only
if the source completion percentage equals 100, and "notStarted" otherwise. -/
theorem status_mapping (task : PlannerTask) (details : Option PlannerTaskDetails)
    (tag : Bool) :
    ((mapPlannerToTodo task details tag).status = "completed" ↔
      task.percentComplete = 100) ∧
    (task.percentComplete ≠ 100 →
      (mapPlannerToTodo task details tag).status = "notStarted") := by
  by_cases h : task.percentComplete = 100 <;>
    simp [mapPlannerToTodo, h]

/-- C7 (amended): the constructed body always ends with the four fixed
metadata lines (header, plan id, task id, creation timestamp, in that
order); a non-empty description precedes them followed by a blank line,
and when the description is absent or empty the body is exactly the four
metadata lines. -/
theorem buildTaskBody_structure (task : PlannerTask) (details : Option PlannerTaskDetails) :
    buildTaskBody task details =
      (match details with
       | some d =>
         match d.description with
         | some s => if s = "" then metaBlock task else s ++ "\n" ++ "\n" ++ metaBlock task
         | none => metaBlock task
       | none => metaBlock task) ∧
    ∃ p, buildTaskBody task details = p ++ metaBlock task := by
  have hmeta : joinWith "\n"
      ["--- Converted from Planner ---",
       "Plan ID: " ++ task.planId,
       "Original Task ID: " ++ task.id,
       "Created: " ++ task.createdDateTime] = metaBlock task := by
    simp [joinWith, metaBlock, String.append_assoc]
  have h2 : ∀ M : String, "\n" ++ ("\n" ++ M) = "\n\n" ++ M := fun M => by
    rw [show ("\n\n" : String) = "\n" ++ "\n" from rfl, String.append_assoc]
  constructor
  · match details with
    | none => simpa [buildTaskBody] using hmeta
    | some d =>
      match hd : d.description with
      | none => simpa [buildTaskBody, hd] using hmeta
      | some s =>
        by_cases hs : s = ""
        · simpa [buildTaskBody, hd, hs] using hmeta
        · simp only [buildTaskBody, hd, if_neg hs]
          simp [joinWith, metaBlock, String.append_assoc]
          rw [← h2]
  · match details with
    | none => exact ⟨"", by simpa [buildTaskBody] using hmeta⟩
    | some d =>
      match hd : d.description with
      | none => exact ⟨"", by simpa [buildTaskBody, hd] using hmeta⟩
      | some s =>
        by_cases hs : s = ""
        · exact ⟨"", by simpa [buildTaskBody, hd, hs] using hmeta⟩
        · refine ⟨s ++ "\n" ++ "\n", ?_⟩
          simp only [buildTaskBody, hd, if_neg hs]
          simp [joinWith, metaBlock, String.append_assoc]
          rw [← h2]

/-- A concrete planner task used by closed counterexample statements. -/
def sampleTask : PlannerTask :=
  { id := "task-1", title := "T", planId := "plan-1", bucketId := none,
    priority := 5, percentComplete := 0, dueDateTime := none,
    createdDateTime := "2026-01-01T00:00:00Z" }

/-- C7 counterexample: for a details record whose description is the empty
string, the description is a present field, yet the produced body is exactly
the four metadata lines and not an empty description followed by a blank
line and the metadata block (JS truthiness skips an empty description). -/
theorem buildTaskBody_empty_description_cex :
    (some (("" : String)) ≠ (none : Option String)) ∧
    buildTaskBody sampleTask (some { description := some "", checklist := none }) =
      metaBlock sampleTask ∧
    buildTaskBody sampleTask (some { description := some "", checklist := none }) ≠
      "" ++ "\n" ++ "\n" ++ metaBlock sampleTask := by
  refine ⟨by decide, by decide, by decide⟩

/-! ## Keyword extraction of find-todo-task (searchKeyword) -/

/-- The regex class `\w`: ASCII letters, digits and the underscore. -/
def isWordChar (c : Char) : Bool :=
  c.isAlpha || c.isDigit || c = '_'

/-- The regex class `\s`, restricted to its ASCII members (space, tab,
newline, carriage return, vertical tab, form feed); the titles handled here
are ASCII. -/
def isJsSpace (c : Char) : Bool :=
  c = ' ' || c = '\t' || c = '\n' || c = '\r' || c.toNat = 11 || c.toNat = 12

/-- Whether a character list starts with a word character. -/
def headIsWord : List Char → Bool
  | d :: _ => isWordChar d
  | [] => false

/-- One left-to-right pass of `.replace(/#\w+/g, '')`: the flag records that
the scanner is inside the word-character run of a matched hash tag and is
dropping it.  A `#` must be followed by at least one word character to start
a match; the match then greedily takes the whole word-character run. -/
def removeHashtagsAux : Bool → List Char → List Char
  | _, [] => []
  | inTag, c :: rest =>
    if inTag && isWordChar c then removeHashtagsAux true rest
    else if c = '#' && headIsWord rest then removeHashtagsAux true rest
    else c :: removeHashtagsAux false rest

/-- `title.replace(/#\w+/g, '')`. -/
def removeHashtags (l : List Char) : List Char :=
  removeHashtagsAux false l

/-- `.replace(/[^\w\s]/g, ' ')`: every character that is neither a word
character nor whitespace becomes a space. -/
def spaceSpecials (l : List Char) : List Char :=
  l.map fun c => if isWordChar c || isJsSpace c then c else ' '

/-- `String.prototype.trim`: drop whitespace from both ends. -/
def trimWs (l : List Char) : List Char :=
  ((l.dropWhile isJsSpace).reverse.dropWhile isJsSpace).reverse

/-- `.split(/\s+/)` on a trimmed string: maximal whitespace runs separate
the tokens (a trimmed input yields no empty token, matching the JS result
elementwise; the JS result `[""]` for the empty input holds no token longer
than 3 characters either, so the fallback below agrees). -/
def wsSplitAux : List Char → List Char → List (List Char)
  | [], acc => match acc with
    | [] => []
    | _ => [acc.reverse]
  | c :: cs, acc =>
    if isJsSpace c then
      match acc with
      | [] => wsSplitAux cs []
      | _ => acc.reverse :: wsSplitAux cs []
    else wsSplitAux cs (c :: acc)

/-- The token list the find tool derives from a title: strip hash tags,
replace the remaining special characters with spaces, trim, split on
whitespace. -/
def keywordTokens (title : String) : List (List Char) :=
  wsSplitAux (trimWs (spaceSpecials (removeHashtags title.toList))) []

/-- searchKeyword of find-todo-task: the first token longer than 3
characters, or `title.slice(0, 20)` when none qualifies (every token is a
non-empty string, hence truthy, so `||` only fires on a failed find). -/
def searchKeyword (title : String) : String :=
  match (keywordTokens title).find? (fun w => w.length > 3) with
  | some w => String.mk w
  | none => String.mk (title.toList.take 20)

/-- C1 (amended): the find operation derives its keyword by removing
hash-tag tokens, replacing non-word characters with spaces, splitting on
whitespace and taking the first token longer than 3 characters, falling
back to the first 20 characters of the raw title when no token qualifies;
for the input title "#ENG #BuildPart - Tapped Hole" the derived keyword is
"Tapped" (hash-tag stripping deletes the whole token "#BuildPart", so
"BuildPart" never survives into the token list). -/
theorem searchKeyword_spec :
    searchKeyword "#ENG #BuildPart - Tapped Hole" = "Tapped" ∧
    ∀ title : String,
      (∃ w, (keywordTokens title).find? (fun u => u.length > 3) = some w ∧
        searchKeyword title = String.mk w ∧ w ∈ keywordTokens title ∧ w.length > 3) ∨
      ((keywordTokens title).find? (fun u => u.length > 3) = none ∧
        (∀ u ∈ keywordTokens title, ¬ u.length > 3) ∧
        searchKeyword title = String.mk (title.toList.take 20)) := by
  constructor
  · decide
  · intro title
    match h : (keywordTokens title).find? (fun u => u.length > 3) with
    | some w =>
      refine Or.inl ⟨w, h, ?_, ?_, ?_⟩
      · simp [searchKeyword, h]
      · exact List.mem_of_find?_eq_some h
      · simpa using List.find?_some h
    | none =>
      refine Or.inr ⟨h, ?_, ?_⟩
      · intro u hu
        have := List.find?_eq_none.mp h u hu
        simpa using this
      · simp [searchKeyword, h]

/-- C1 counterexample: on the spec's own worked example the derived keyword
is not "BuildPart" (it is "Tapped"). -/
theorem searchKeyword_example_cex :
    searchKeyword "#ENG #BuildPart - Tapped Hole" ≠ "BuildPart" := by
  decide

/-! ## Checklist creation and the conversion result (steps 5 and 6) -/

/-- ChecklistItemResult interface: the outcome recorded per creation
attempt. -/
structure ChecklistItemResult where
  displayName : String
  isChecked : Bool
  success : Bool

/-- The checklist loop from index `i` on: each item yields one POST attempt
whose outcome the oracle `create` decides (true = created, false = the
request threw and the catch recorded a failure); the loop never breaks. -/
def runChecklistFrom (create : Nat → ChecklistItem → Bool) (i : Nat) :
    List ChecklistItem → List ChecklistItemResult
  | [] => []
  | it :: rest =>
    { displayName := it.title, isChecked := it.isChecked, success := create i it } ::
      runChecklistFrom create (i + 1) rest

/-- The whole checklist loop over the sorted items. -/
def runChecklist (create : Nat → ChecklistItem → Bool)
    (items : List ChecklistItem) : List ChecklistItemResult :=
  runChecklistFrom create 0 items

/-- The fields of the final result object that the claims inspect:
`success: true` is unconditional on this path, `checklistItems` is the
accounting string, `plannerTaskStatus` the disposition of the source task. -/
structure ConvResult where
  success : Bool
  checklistItems : String
  plannerTaskStatus : String

/-- The result construction at the end of the conversion handler. -/
def mkConvResult (checklistResults : List ChecklistItemResult)
    (plannerStatus : String) : ConvResult :=
  let checklistCreated := (checklistResults.filter (fun r => r.success)).length
  let checklistTotal := checklistResults.length
  { success := true
    checklistItems :=
      if checklistTotal > 0 then
        toString checklistCreated ++ "/" ++ toString checklistTotal ++ " created"
      else "none"
    plannerTaskStatus := plannerStatus }

/-- Splitting a result list by the success flag is exhaustive. -/
theorem length_filter_success_add (rs : List ChecklistItemResult) :
    (rs.filter (fun r => r.success)).length +
      (rs.filter (fun r => !r.success)).length = rs.length := by
  induction rs with
  | nil => rfl
  | cons r rest ih =>
    by_cases h : r.success <;> simp [List.filter, h, ← ih] <;> omega

/-- C3: with N checklist items of which M creation attempts fail, every one
of the N items is attempted in order (no short-circuit on the first
failure), the conversion result still reports success = true, and the
accounting reports (N - M) succeeded out of N total. -/
theorem checklist_partial_failure (create : Nat → ChecklistItem → Bool)
    (items : List ChecklistItem) (plannerStatus : String) :
    (runChecklist create items).length = items.length ∧
    (runChecklist create items).map (fun r => (r.displayName, r.isChecked)) =
      items.map (fun it => (it.title, it.isChecked)) ∧
    (mkConvResult (runChecklist create items) plannerStatus).success = true ∧
    ((runChecklist create items).filter (fun r => r.success)).length =
      items.length -
        ((runChecklist create items).filter (fun r => !r.success)).length ∧
    (0 < items.length →
      (mkConvResult (runChecklist create items) plannerStatus).checklistItems =
        toString ((runChecklist create items).filter (fun r => r.success)).length ++
          "/" ++ toString items.length ++ " created") := by
  have hmap : ∀ i, (runChecklistFrom create i items).map
      (fun r => (r.displayName, r.isChecked)) =
      items.map (fun it => (it.title, it.isChecked)) := by
    induction items with
    | nil => intro i; rfl
    | cons it rest ih => intro i; simp [runChecklistFrom, ih]
  have hlen : (runChecklist create items).length = items.length := by
    simpa using congrArg List.length (hmap 0)
  refine ⟨hlen, hmap 0, rfl, ?_, ?_⟩
  · have := length_filter_success_add (runChecklist create items)
    omega
  · intro hpos
    simp [mkConvResult, hlen, hpos]

/-! ## Marking the source task complete (step 6) -/

/-- The requests the marking step issues against the remote API. -/
inductive MarkReq where
  | refetchReq : MarkReq
  | patchReq : String → MarkReq
deriving DecidableEq

/-- `taskData._etag || '*'`: the guard token is the refetched etag when the
property holds a truthy value, and "*" when it is absent or empty. -/
def etagOrStar (f : Option String) : String :=
  match f with
  | some s => if s = "" then "*" else s
  | none => "*"

/-- The remote behaviour the marking step can observe: `refetch` is the
re-read of the source task (`none` = the request or the JSON parse threw;
`some f` = parsed, with `f` the value of its `_etag` property), and
`patchOk` tells whether the guarded PATCH with the given If-Match header
succeeds. -/
structure MarkEnv where
  refetch : Option (Option String)
  patchOk : String → Bool

/-- The disposition step: when marking is requested, refetch the task,
compute the guard token, and issue the conditional PATCH setting
percentComplete to 100; any failure is caught and recorded as
"failed_to_complete".  Returns the plannerStatus string and the requests
issued. -/
def markStep (markPlannerComplete : Bool) (env : MarkEnv) : String × List MarkReq :=
  if markPlannerComplete then
    match env.refetch with
    | none => ("failed_to_complete", [MarkReq.refetchReq])
    | some f =>
      let etag := etagOrStar f
      if env.patchOk etag then ("completed", [MarkReq.refetchReq, MarkReq.patchReq etag])
      else ("failed_to_complete", [MarkReq.refetchReq, MarkReq.patchReq etag])
  else ("unchanged", [])

/-- C8: with marking enabled, the source task is refetched and a
conditional update guarded by the refetched concurrency token is issued
("*" when the token is absent); if any part of the marking step fails, the
conversion result still reports success = true while the disposition field
records "failed_to_complete", a state distinct from "completed". -/
theorem mark_complete_guarded (env : MarkEnv) (rs : List ChecklistItemResult) :
    MarkReq.refetchReq ∈ (markStep true env).2 ∧
    (∀ f, env.refetch = some f → MarkReq.patchReq (etagOrStar f) ∈ (markStep true env).2) ∧
    (env.refetch = some none → MarkReq.patchReq "*" ∈ (markStep true env).2) ∧
    ((env.refetch = none ∨
        ∃ f, env.refetch = some f ∧ env.patchOk (etagOrStar f) = false) →
      (markStep true env).1 = "failed_to_complete" ∧
      (mkConvResult rs (markStep true env).1).success = true ∧
      (mkConvResult rs (markStep true env).1).plannerTaskStatus =
        "failed_to_complete" ∧
      (markStep true env).1 ≠ "completed") := by
  refine ⟨?_, ?_, ?_, ?_⟩
  · match h : env.refetch with
    | none => simp [markStep, h]
    | some f =>
      by_cases hp : env.patchOk (etagOrStar f) <;> simp [markStep, h, hp]
  · intro f hf
    by_cases hp : env.patchOk (etagOrStar f) <;> simp [markStep, hf, hp]
  · intro hf
    by_cases hp : env.patchOk "*" <;> simp [markStep, hf, hp, etagOrStar]
  · intro hfail
    have hst : (markStep true env).1 = "failed_to_complete" := by
      rcases hfail with h | ⟨f, hf, hp⟩
      · simp [markStep, h]
      · simp [markStep, hf, hp]
    refine ⟨hst, rfl, by simp [mkConvResult, hst], by simp [hst]⟩

/-! ## The find-todo-task search loop -/

/-- A loosely typed JSON value as parsed from a Graph response; `none` at
the property-lookup level stands for an undefined (absent) property, so
JSON null is a defined value distinct from undefined. -/
inductive JsVal where
  | str : String → JsVal
  | num : Int → JsVal
  | boolV : Bool → JsVal
  | nullV : JsVal
deriving DecidableEq

/-- A task object of a list response: a property map (undefined modelled as
`none`). -/
structure GTask where
  get : String → Option JsVal

/-- FoundTask interface of the search loop. -/
structure FoundTask where
  task : GTask
  listId : String
  listName : Option String

/-- The inner loop over one list response: push every task seen into
allMatches and stop at the first task whose title strictly equals the query
title (the exact match is pushed before the break skips the rest). -/
def scanTasks (qtitle listId : String) :
    List GTask → List FoundTask × Option FoundTask
  | [] => ([], none)
  | t :: rest =>
    if t.get "title" = some (JsVal.str qtitle) then
      ([⟨t, listId, none⟩], some ⟨t, listId, none⟩)
    else
      let p := scanTasks qtitle listId rest
      (⟨t, listId, none⟩ :: p.1, p.2)

/-- What the outer loop accumulates: all partial matches, the exact match
if one was found, and the trace of list ids a query was issued against. -/
structure SearchOut where
  allMatches : List FoundTask
  exactMatch : Option FoundTask
  queried : List String

/-- The outer loop over the lists to search, in priority order.  The query
oracle yields `none` when the request for that list throws (the catch logs
and continues with the next list); a found exact match breaks out of the
loop, so no further list is queried. -/
def searchLists (query : String → Option (List GTask)) (qtitle : String) :
    List String → SearchOut
  | [] => ⟨[], none, []⟩
  | lid :: rest =>
    match query lid with
    | none =>
      let o := searchLists query qtitle rest
      ⟨o.allMatches, o.exactMatch, lid :: o.queried⟩
    | some tasks =>
      let p := scanTasks qtitle lid tasks
      match p.2 with
      | some e => ⟨p.1, some e, [lid]⟩
      | none =>
        let o := searchLists query qtitle rest
        ⟨p.1 ++ o.allMatches, o.exactMatch, lid :: o.queried⟩

/-- A successful scan of a list response holding an exact title match
always reports the exact match. -/
theorem scanTasks_exact_isSome (qtitle listId : String) (ts : List GTask)
    (t : GTask) (ht : t ∈ ts)
    (htitle : t.get "title" = some (JsVal.str qtitle)) :
    (scanTasks qtitle listId ts).2.isSome := by
  induction ts with
  | nil => cases ht
  | cons u rest ih =>
    by_cases hu : u.get "title" = some (JsVal.str qtitle)
    · simp [scanTasks, hu]
    · rcases List.mem_cons.mp ht with rfl | hmem
      · exact absurd htitle hu
      · simp [scanTasks, hu, ih hmem]

/-- C2: if the response of the list at position i contains a task whose
title equals the query title exactly (case-sensitive string equality), then
the loop stops at or before position i: the queried lists are an initial
segment of the priority order of length at most i + 1, so no query is ever
issued against any later list. -/
theorem search_short_circuit (query : String → Option (List GTask))
    (qtitle : String) (L : List String) (i : Nat) (hi : i < L.length)
    (ts : List GTask) (hq : query (L.get ⟨i, hi⟩) = some ts)
    (t : GTask) (ht : t ∈ ts)
    (htitle : t.get "title" = some (JsVal.str qtitle)) :
    (searchLists query qtitle L).queried.length ≤ i + 1 ∧
    (searchLists query qtitle L).queried =
      L.take (searchLists query qtitle L).queried.length := by
  induction L generalizing i with
  | nil => cases hi
  | cons lid rest ih =>
    match i with
    | 0 =>
      have hq0 : query lid = some ts := hq
      have hex := scanTasks_exact_isSome qtitle lid ts t ht htitle
      match hscan : (scanTasks qtitle lid ts).2 with
      | none => rw [hscan] at hex; cases hex
      | some e => simp [searchLists, hq0, hscan]
    | j + 1 =>
      have hj : j < rest.length := Nat.lt_of_succ_lt_succ hi
      have hq' : query (rest.get ⟨j, hj⟩) = some ts := hq
      have := ih j hj hq'
      match hql : query lid with
      | none =>
        simp only [searchLists, hql]
        refine ⟨Nat.succ_le_succ this.1, ?_⟩
        simp [List.take, ← this.2]
      | some tasks =>
        match hscan : (scanTasks qtitle lid tasks).2 with
        | some e =>
          simp [searchLists, hql, hscan]
        | none =>
          simp only [searchLists, hql, hscan]
          refine ⟨Nat.succ_le_succ this.1, ?_⟩
          simp [List.take, ← this.2]

/-- Witness for C2 at a concrete search: two lists, the first of which
contains an exact match for the query title "Tapped Hole"; the loop queries
only the first list. -/
theorem search_short_circuit_witness :
    (searchLists
        (fun lid =>
          if lid = "AAA" then
            some [⟨fun f => if f = "title" then some (JsVal.str "Tapped Hole") else none⟩]
          else some [])
        "Tapped Hole" ["AAA", "BBB"]).queried.length ≤ 0 + 1 ∧
    (searchLists
        (fun lid =>
          if lid = "AAA" then
            some [⟨fun f => if f = "title" then some (JsVal.str "Tapped Hole") else none⟩]
          else some [])
        "Tapped Hole" ["AAA", "BBB"]).queried =
      ["AAA", "BBB"].take
        (searchLists
          (fun lid =>
            if lid = "AAA" then
              some [⟨fun f => if f = "title" then some (JsVal.str "Tapped Hole") else none⟩]
            else some [])
          "Tapped Hole" ["AAA", "BBB"]).queried.length :=
  search_short_circuit
    (fun lid =>
      if lid = "AAA" then
        some [⟨fun f => if f = "title" then some (JsVal.str "Tapped Hole") else none⟩]
      else some [])
    "Tapped Hole" ["AAA", "BBB"] 0 (by decide)
    [⟨fun f => if f = "title" then some (JsVal.str "Tapped Hole") else none⟩]
    rfl
    ⟨fun f => if f = "title" then some (JsVal.str "Tapped Hole") else none⟩
    (List.mem_singleton.mpr rfl) rfl

/-! ## The lightweight partial-match projection -/

/-- The fields a partial-match entry may carry besides the list id. -/
def lightweightFields : List String := ["id", "title", "status", "importance", "dueDateTime"]

/-- A value of a partial-match entry: the list id, or a copied task field
value. -/
inductive LightVal where
  | lidV : String → LightVal
  | fieldV : JsVal → LightVal
deriving DecidableEq

/-- One lightweight entry: start from an object holding only listId, then
copy each of the five fields that is not undefined on the task (the JS
check is strict inequality with undefined, so a defined null would be
copied; an undefined field is omitted entirely). -/
def lightOf (m : FoundTask) : List (String × LightVal) :=
  ("listId", LightVal.lidV m.listId) ::
    lightweightFields.filterMap (fun f => (m.task.get f).map (fun v => (f, LightVal.fieldV v)))

/-- The partial-match response body: one lightweight entry per match, in
the order the matches were discovered. -/
def lightweightMatches (ms : List FoundTask) : List (List (String × LightVal)) :=
  ms.map lightOf

/-- C10: every reported partial-match entry carries the list id plus
exactly those of the fields id, title, status, importance and dueDateTime
that are defined on the matched task; an undefined field is omitted from
the entry entirely, and nothing else appears in an entry. -/
theorem lightweight_projection (ms : List FoundTask) (m : FoundTask) :
    (m ∈ ms → lightOf m ∈ lightweightMatches ms) ∧
    ("listId", LightVal.lidV m.listId) ∈ lightOf m ∧
    (∀ f v, (f, LightVal.fieldV v) ∈ lightOf m ↔
      f ∈ lightweightFields ∧ m.task.get f = some v) ∧
    (∀ e ∈ lightOf m, e = ("listId", LightVal.lidV m.listId) ∨
      ∃ f v, e = (f, LightVal.fieldV v) ∧ f ∈ lightweightFields ∧
        m.task.get f = some v) := by
  refine ⟨fun hm => List.mem_map_of_mem lightOf hm, List.mem_cons_self _ _, ?_, ?_⟩
  · intro f v
    constructor
    · intro hmem
      rcases List.mem_cons.mp hmem with hhead | htail
      · cases hhead
      · rcases List.mem_filterMap.mp htail with ⟨g, hg, hmap⟩
        rcases Option.map_eq_some'.mp hmap with ⟨v0, hv0, heq⟩
        cases heq
        exact ⟨hg, hv0⟩
    · intro ⟨hf, hv⟩
      refine List.mem_cons_of_mem _ (List.mem_filterMap.mpr ⟨f, hf, ?_⟩)
      simp [hv]
  · intro e he
    rcases List.mem_cons.mp he with rfl | htail
    · exact Or.inl rfl
    · rcases List.mem_filterMap.mp htail with ⟨g, hg, hmap⟩
      rcases Option.map_eq_some'.mp hmap with ⟨v0, hv0, heq⟩
      exact Or.inr ⟨g, v0, heq.symm, hg, hv0⟩

/-! ## Client generator post-processing (generateMcpTools)

The generator rewrites the generated client text with four textual
substitutions, each a regex over the file contents.  The regexes are
transcribed into executable matchers below; a lazy quantifier is the
shortest extension after which the rest of the pattern matches, `\s*` or
`\s+` followed by a non-whitespace literal is a maximal whitespace run (no
other backtracking split can succeed), and `String.prototype.replace`
returns its input unchanged when the pattern finds no match. -/

/-- The literal of the regex redirecting the generated import:
a single-quoted `@zodios/core` followed by a semicolon. -/
def zodiosImportPat : List Char := "\x27@zodios/core\x27;".toList

/-- Replacement text of the import redirect. -/
def hackRepl : List Char := "\x27./hack.js\x27;".toList

/-- The literal `.strict();` replaced inside a matched schema block. -/
def strictCallPat : List Char := ".strict();".toList

/-- The replacement `.passthrough();`. -/
def passthroughRepl : List Char := ".passthrough();".toList

/-- The literal `.object(` followed by an opening brace. -/
def objectOpenPat : List Char := ".object(\x7b".toList

/-- The literal closing brace followed by a closing parenthesis. -/
def closeParenPat : List Char := "\x7d)".toList

/-- The literal `errors:`. -/
def errorsKeyPat : List Char := "errors:".toList

/-- The first relaxed schema name. -/
def attachmentName : List Char := "microsoft_graph_attachment".toList

/-- The second relaxed schema name. -/
def plannerAssignmentsName : List Char := "microsoft_graph_plannerAssignments".toList

/-- Index of the first occurrence of a literal pattern, `none` when the
pattern occurs nowhere. -/
def findLitIdx (pat : List Char) : List Char → Option Nat
  | [] => if pat.isPrefixOf ([] : List Char) then some 0 else none
  | c :: rest =>
    if pat.isPrefixOf (c :: rest) then some 0
    else (findLitIdx pat rest).map (· + 1)

/-- Non-global `String.prototype.replace` with a literal pattern: rewrite
the first occurrence, return the input unchanged when there is none (the
patterns used here are non-empty). -/
def replaceFirstLit (pat repl : List Char) : List Char → List Char
  | [] => []
  | c :: rest =>
    if pat.isPrefixOf (c :: rest) then repl ++ (c :: rest).drop pat.length
    else c :: replaceFirstLit pat repl rest

/-- Substitution (a): redirect the `@zodios/core` import to the local shim. -/
def replaceImport (s : List Char) : List Char :=
  replaceFirstLit zodiosImportPat hackRepl s

/-- Does `\x7d)\s+\.strict\(\);` match at the start of the list?  Returns the
number of characters it consumes. -/
def checkStrictTailAt (l : List Char) : Option Nat :=
  if closeParenPat.isPrefixOf l then
    let a := l.drop closeParenPat.length
    let w := a.takeWhile isJsSpace
    if w.length ≥ 1 && strictCallPat.isPrefixOf (a.dropWhile isJsSpace) then
      some (closeParenPat.length + w.length + strictCallPat.length)
    else none
  else none

/-- The lazy `[\s\S]*?` before the closing of a schema block: the shortest
skip after which `\x7d)\s+\.strict\(\);` matches.  Returns skip plus tail
length. -/
def findStrictTail : List Char → Option Nat
  | [] => none
  | c :: rest =>
    match checkStrictTailAt (c :: rest) with
    | some n => some n
    | none => (findStrictTail rest).map (· + 1)

/-- Does the whole strict-schema regex for the given schema name match at
the start of the list?  Returns the length of the match. -/
def tryStrictAt (name : List Char) (s : List Char) : Option Nat :=
  let head := ("const ".toList) ++ name ++ (" = z".toList)
  if head.isPrefixOf s then
    let a := s.drop head.length
    let w := a.takeWhile isJsSpace
    let b := a.dropWhile isJsSpace
    if w.length ≥ 1 && objectOpenPat.isPrefixOf b then
      (findStrictTail (b.drop objectOpenPat.length)).map
        (fun n => head.length + w.length + objectOpenPat.length + n)
    else none
  else none

/-- Substitutions (b) and (c): find the first strict-schema block of the
given name and replace the first `.strict();` inside the matched block with
`.passthrough();`; text without a match is returned unchanged. -/
def relaxStrict (name : List Char) : List Char → List Char
  | [] => []
  | c :: rest =>
    match tryStrictAt name (c :: rest) with
    | some n =>
      replaceFirstLit strictCallPat passthroughRepl ((c :: rest).take n) ++
        (c :: rest).drop n
    | none => c :: relaxStrict name rest

/-- Position of the first match of a start-anchored matcher, scanning left
to right over every suffix (the final empty suffix included). -/
def scanFirst (tryAt : List Char → Option Nat) : List Char → Option Nat
  | [] => match tryAt ([] : List Char) with
    | some _ => some 0
    | none => none
  | c :: rest =>
    match tryAt (c :: rest) with
    | some _ => some 0
    | none => (scanFirst tryAt rest).map (· + 1)

/-- The lookahead `(?=\s*\x7d)`: after skipping whitespace the next
character is a closing brace. -/
def lookaheadBrace (l : List Char) : Bool :=
  match l.dropWhile isJsSpace with
  | c :: _ => c = '}'
  | [] => false

/-- The lazy tail `[\s\S]*?],?(?=\s*\x7d)` of the errors regex: shortest
skip to a `]` after which an optional comma (taken greedily when the
lookahead then holds) ends the match with the brace lookahead satisfied.
Returns the consumed length. -/
def findErrClose : List Char → Option Nat
  | [] => none
  | c :: rest =>
    if c = ']' then
      if (match rest with
          | d :: r2 => d = ',' && lookaheadBrace r2
          | [] => false) then some 2
      else if lookaheadBrace rest then some 1
      else (findErrClose rest).map (· + 1)
    else (findErrClose rest).map (· + 1)

/-- `\s*errors:\s*\[` then the lazy close, anchored at the start (after the
optional leading comma was handled).  Returns the consumed length. -/
def tryErrorsCore (s : List Char) : Option Nat :=
  let w1 := s.takeWhile isJsSpace
  let a := s.dropWhile isJsSpace
  if errorsKeyPat.isPrefixOf a then
    let b := a.drop errorsKeyPat.length
    let w2 := b.takeWhile isJsSpace
    match b.dropWhile isJsSpace with
    | c :: r =>
      if c = '[' then
        (findErrClose r).map
          (fun n => w1.length + errorsKeyPat.length + w2.length + 1 + n)
      else none
    | [] => none
  else none

/-- The whole errors regex `,?\s*errors:\s*\[[\s\S]*?],?(?=\s*\x7d)` anchored
at the start: the optional leading comma is taken greedily, falling back to
not taking it (the fallback never succeeds, a comma not being whitespace,
but is transcribed for fidelity). -/
def tryErrorsAt : List Char → Option Nat
  | [] => tryErrorsCore []
  | c :: rest =>
    if c = ',' then
      match tryErrorsCore rest with
      | some n => some (n + 1)
      | none => tryErrorsCore (c :: rest)
    else tryErrorsCore (c :: rest)

/-- Substitution (d): the global replace deleting every errors array; each
match is removed and scanning resumes after it (a match consumes at least
`errors:[`, so the recursion dropping `n - 1` of the tail states exactly
the resumption point). -/
def stripErrors : List Char → List Char
  | [] => []
  | c :: rest =>
    match tryErrorsAt (c :: rest) with
    | some n => stripErrors (rest.drop (n - 1))
    | none => c :: stripErrors rest
termination_by l => l.length
decreasing_by
  all_goals simp only [List.length_drop, List.length_cons]
  all_goals omega

/-- The whole post-processing pass in source order: import redirect, the
two strict-to-passthrough relaxations, errors-array stripping. -/
def postProcessClient (s : List Char) : List Char :=
  stripErrors
    (relaxStrict plannerAssignmentsName
      (relaxStrict attachmentName
        (replaceImport s)))

/-- A literal pattern that occurs nowhere leaves the text unchanged. -/
theorem replaceFirstLit_of_no_match (pat repl : List Char) :
    ∀ s, findLitIdx pat s = none → replaceFirstLit pat repl s = s := by
  intro s
  induction s with
  | nil => intro _; rfl
  | cons c rest ih =>
    intro h
    have hp : pat.isPrefixOf (c :: rest) = false := by
      by_contra hc
      simp [findLitIdx, eq_true_of_ne_false hc] at h
    have hrest : findLitIdx pat rest = none := by
      rw [findLitIdx, hp] at h
      simpa [Option.map_eq_none'] using h
    simp [replaceFirstLit, hp, ih hrest]

/-- Decomposition of a failed scan over a non-empty text. -/
theorem scanFirst_cons_none {tryAt : List Char → Option Nat} {c : Char}
    {rest : List Char} (h : scanFirst tryAt (c :: rest) = none) :
    tryAt (c :: rest) = none ∧ scanFirst tryAt rest = none := by
  cases htry : tryAt (c :: rest) with
  | some n => simp [scanFirst, htry] at h
  | none =>
    rw [scanFirst, htry] at h
    exact ⟨rfl, by simpa [Option.map_eq_none'] using h⟩

/-- A strict-schema pattern that matches nowhere leaves the text unchanged. -/
theorem relaxStrict_of_no_match (name : List Char) :
    ∀ s, scanFirst (tryStrictAt name) s = none → relaxStrict name s = s := by
  intro s
  induction s with
  | nil => intro _; rfl
  | cons c rest ih =>
    intro h
    obtain ⟨hhead, hrest⟩ := scanFirst_cons_none h
    simp [relaxStrict, hhead, ih hrest]

/-- An errors pattern that matches nowhere leaves the text unchanged. -/
theorem stripErrors_of_no_match :
    ∀ s, scanFirst tryErrorsAt s = none → stripErrors s = s := by
  intro s
  induction s with
  | nil => intro _; rw [stripErrors]
  | cons c rest ih =>
    intro h
    obtain ⟨hhead, hrest⟩ := scanFirst_cons_none h
    rw [stripErrors, hhead]
    exact congrArg (c :: ·) (ih hrest)

/-- C9: for each of the generator textual substitutions (import redirect,
the two strict-to-passthrough schema relaxations, the errors-array
stripping), a text in which the substitution pattern finds no match passes
through that substitution unchanged, and the post-processing completes as a
total function (a silent no-op, not a crash); when none of the four
patterns matches, the whole pass is the identity. -/
theorem generator_noop_substitutions (s : List Char) :
    (findLitIdx zodiosImportPat s = none → replaceImport s = s) ∧
    (scanFirst (tryStrictAt attachmentName) s = none →
      relaxStrict attachmentName s = s) ∧
    (scanFirst (tryStrictAt plannerAssignmentsName) s = none →
      relaxStrict plannerAssignmentsName s = s) ∧
    (scanFirst tryErrorsAt s = none → stripErrors s = s) ∧
    ((findLitIdx zodiosImportPat s = none ∧
      scanFirst (tryStrictAt attachmentName) s = none ∧
      scanFirst (tryStrictAt plannerAssignmentsName) s = none ∧
      scanFirst tryErrorsAt s = none) → postProcessClient s = s) := by
  refine ⟨replaceFirstLit_of_no_match _ _ s, relaxStrict_of_no_match _ s,
    relaxStrict_of_no_match _ s, stripErrors_of_no_match s, ?_⟩
  rintro ⟨h1, h2, h3, h4⟩
  unfold postProcessClient replaceImport
  rw [replaceFirstLit_of_no_match zodiosImportPat hackRepl s h1,
    relaxStrict_of_no_match attachmentName s h2,
    relaxStrict_of_no_match plannerAssignmentsName s h3,
    stripErrors_of_no_match s h4]

/-- Witness for C9: a concrete generated-text fragment matched by none of
the four patterns passes through the whole post-processing pass unchanged. -/
theorem generator_noop_substitutions_witness :
    postProcessClient ("export const x = z.number();".toList) =
      ("export const x = z.number();".toList) :=
  (generator_noop_substitutions ("export const x = z.number();".toList)).2.2.2.2
    ⟨by decide, by decide, by decide, by decide⟩

end MsMcp
